import Mathlib

/-!
Verification development for the SenateTranscript recorder/transcriber.

The Python sources (package `uc_watcher`) are shallowly embedded below.
Strings are modelled as lists of character code points (`List Nat`);
machine time is modelled in whole seconds as `Nat`.  Each section names
the source file and function it embeds.
-/

namespace SenateTranscript

/-! ### Embedding of `uc_watcher/transcribe.py`, `TranscriptionWorker`

The worker's mutable fields (`last_processed_size`, `stop_flag`, the
transcript file it appends to) become an explicit state record.  One
iteration of `_transcribe_loop` is a pure function of the state and of
an environment record carrying everything the iteration observes from
the outside world: whether the audio file exists, `os.path.getsize` at
the top of the iteration, the end-of-file position at the moment
`shutil.copyfileobj` runs (the file is concurrently appended to, so
this can exceed the size snapshot), the wall clock, and the outcome of
the Whisper call.
-/

/-- Worker state: `last_processed_size`, `last_transcription_time`, the
transcript file contents (as the list of appended chunks), and the
cooperative `stop_flag` (transcribe.py lines 16-20, 182). -/
structure WState where
  lastProcessedSize : Nat
  lastTranscriptionTime : Nat
  transcript : List (List Nat)
  stopFlag : Bool
deriving DecidableEq

/-- Environment observed by one iteration of `_transcribe_loop`. -/
structure IterEnv where
  fileExists : Bool
  sizeAtCheck : Nat
  sizeAtCopy : Nat
  now : Nat
  now2 : Nat
  timestamp : List Nat
  extractOk : Bool
  transcribeResult : Option (List Nat)
deriving DecidableEq

/-- Minimum chunk size, transcribe.py line 180: `256 * 1024`. -/
def min_chunk_size : Nat := 256 * 1024

/-- Gate of transcribe.py lines 197-200: process only if
`current_size > self.last_processed_size` and either the delta is at
least `min_chunk_size` or at least 30 seconds have passed. -/
def shouldTranscribe (currentSize lastProcessed timeSince : Nat) : Bool :=
  decide (lastProcessed < currentSize) &&
    (decide (min_chunk_size ≤ currentSize - lastProcessed) || decide (30 ≤ timeSince))

/-- Transcript entry appended on a successful transcription,
transcribe.py line 227: `f"\n[{timestamp}]\n{text}\n"`. -/
def entryChunk (ts text : List Nat) : List Nat :=
  [10, 91] ++ ts ++ [93, 10] ++ text ++ [10]

/-- Session-end marker written by `stop`, transcribe.py line 134:
`"\n=== Transcription Session Ended ===\n"`. -/
def endMarker : List Nat :=
  [10, 61, 61, 61, 32, 84, 114, 97, 110, 115, 99, 114, 105, 112, 116, 105, 111,
   110, 32, 83, 101, 115, 115, 105, 111, 110, 32, 69, 110, 100, 101, 100, 32,
   61, 61, 61, 10]

/-- One iteration of the body of `_transcribe_loop` (transcribe.py lines
184-250).  Besides the next state it returns the byte range
`[seekOffset, eofAtCopy)` handed to `model.transcribe`, when a call was
made.  Key source facts embedded here:
* `_extract_new_audio_segment` (lines 156-176) seeks to
  `self.last_processed_size` and then `shutil.copyfileobj` copies **to
  end of file**, so the extracted range ends at `e.sizeAtCopy`, not at
  the `current_size` snapshot;
* on success `self.last_processed_size = current_size` (line 230), the
  size snapshot from the top of the iteration;
* every failure (missing file, failed extraction, Whisper exception) is
  caught and the loop continues; nothing in the body touches
  `stop_flag`. -/
def loopIter (s : WState) (e : IterEnv) : WState × Option (Nat × Nat) :=
  if e.fileExists then
    if shouldTranscribe e.sizeAtCheck s.lastProcessedSize (e.now - s.lastTranscriptionTime) then
      if e.extractOk then
        -- the segment fed to the model holds bytes [lastProcessedSize, sizeAtCopy)
        match e.transcribeResult with
        | some text =>
            ({ s with
                transcript := s.transcript ++ [entryChunk e.timestamp text],
                lastProcessedSize := e.sizeAtCheck,
                lastTranscriptionTime := e.now2 },
             some (s.lastProcessedSize, e.sizeAtCopy))
        | none => (s, some (s.lastProcessedSize, e.sizeAtCopy))
      else (s, none)
    else (s, none)
  else (s, none)

/-- Run the loop body over a list of iteration environments, collecting
the byte ranges submitted for transcription. -/
def runLoop (s : WState) : List IterEnv → WState × List (Nat × Nat)
  | [] => (s, [])
  | e :: es =>
      let p := loopIter s e
      let q := runLoop p.1 es
      (q.1, (p.2.toList) ++ q.2)

/-- Model of `TranscriptionWorker.stop` (transcribe.py lines 124-154)
called while iteration `e` is in flight: `stop` sets `stop_flag` and
then `self.thread.join()` blocks until the running iteration finishes
and the loop observes the flag and exits; only then does `stop` append
the session-end marker to the transcript and return. -/
def stopModel (s : WState) (e : IterEnv) : WState :=
  let s1 := (loopIter { s with stopFlag := true } e).1
  { s1 with transcript := s1.transcript ++ [endMarker] }

/-- Arithmetic reading of the processing gate. -/
theorem shouldTranscribe_iff (cs lp ts : Nat) :
    shouldTranscribe cs lp ts = true ↔
      (0 < cs - lp ∧ (min_chunk_size ≤ cs - lp ∨ 30 ≤ ts)) := by
  simp only [shouldTranscribe, Bool.and_eq_true, Bool.or_eq_true, decide_eq_true_eq]
  omega

/-- C5: in each worker iteration (file present, extraction succeeding),
a transcription call occurs iff `delta > 0` and (`delta ≥ 256 KiB` or at
least 30 s have elapsed since the last transcription); in particular a
positive delta below the chunk size with less than 30 s elapsed causes
no call, and once 30 s have elapsed any positive delta triggers a call
regardless of its size. -/
theorem gate_characterizes_transcription_call (s : WState) (e : IterEnv)
    (hfe : e.fileExists = true) (hex : e.extractOk = true) :
    ((loopIter s e).2.isSome = true ↔
      (0 < e.sizeAtCheck - s.lastProcessedSize ∧
        (min_chunk_size ≤ e.sizeAtCheck - s.lastProcessedSize ∨
          30 ≤ e.now - s.lastTranscriptionTime)))
    ∧ (0 < e.sizeAtCheck - s.lastProcessedSize →
        e.sizeAtCheck - s.lastProcessedSize < min_chunk_size →
        e.now - s.lastTranscriptionTime < 30 → (loopIter s e).2 = none)
    ∧ (30 ≤ e.now - s.lastTranscriptionTime →
        0 < e.sizeAtCheck - s.lastProcessedSize →
        (loopIter s e).2.isSome = true) := by
  have hgate := shouldTranscribe_iff e.sizeAtCheck s.lastProcessedSize
    (e.now - s.lastTranscriptionTime)
  by_cases hg : shouldTranscribe e.sizeAtCheck s.lastProcessedSize
      (e.now - s.lastTranscriptionTime) = true
  · have hcall : (loopIter s e).2.isSome = true := by
      simp only [loopIter, hfe, hex, hg, if_true]
      cases e.transcribeResult <;> simp
    refine ⟨⟨fun _ => hgate.mp hg, fun _ => hcall⟩, ?_, fun _ _ => hcall⟩
    intro h1 h2 h3
    exact absurd (hgate.mp hg) (by omega)
  · have hnone : (loopIter s e).2 = none := by
      simp only [loopIter, hfe, hex, hg]
      simp
    refine ⟨⟨fun hc => ?_, fun hc => ?_⟩, fun _ _ _ => hnone, fun h30 hd => ?_⟩
    · rw [hnone] at hc; simp at hc
    · exact absurd (hgate.mpr ⟨hc.1, hc.2⟩) hg
    · exact absurd (hgate.mpr ⟨hd, Or.inr h30⟩) hg

/-- Concrete instance of the gate characterization: delta of exactly
256 KiB with no elapsed time triggers a call. -/
theorem gate_characterizes_transcription_call_witness :
    (loopIter ⟨0, 0, [], false⟩
      ⟨true, 262144, 262144, 0, 1, [], true, some [65]⟩).2.isSome = true :=
  ((gate_characterizes_transcription_call ⟨0, 0, [], false⟩
      ⟨true, 262144, 262144, 0, 1, [], true, some [65]⟩ rfl rfl).1).mpr
    (by decide)

/-- C1 (failing run): the extraction does **not** stop at the size
snapshot.  In the first iteration the file holds 307200 bytes when
`os.path.getsize` runs but has grown to 310000 bytes by the time
`shutil.copyfileobj` copies, so bytes `[0, 310000)` are transcribed
while the checkpoint only advances to 307200; the next iteration then
transcribes `[307200, 310000)` again.  Byte 308000 is inside both
submitted ranges, so it is transcribed twice, contradicting the claimed
invariant that each extraction reads exactly
`[lastProcessedByteOffset, currentSize)` and no byte is transcribed
twice. -/
theorem extraction_rereads_moving_end :
    (runLoop ⟨0, 0, [], false⟩
      [⟨true, 307200, 310000, 5, 20, [], true, some [65]⟩,
       ⟨true, 310000, 310000, 55, 60, [], true, some [66]⟩]).2 =
      [(0, 310000), (307200, 310000)]
    ∧ ((0 ≤ 308000 ∧ 308000 < 310000) ∧ (307200 ≤ 308000 ∧ 308000 < 310000)) := by
  constructor
  · decide
  · omega

/-- C4: with a transcription call in flight (gate passed, extraction
done, Whisper about to return `text`), `stop` returns only after that
call has completed — its entry is in the transcript — and after the
session-end marker has been appended as the final chunk; moreover no
iteration of the loop body ever changes `stop_flag`, so the loop's exit
condition can only be established by an explicit stop request, never by
an internal failure. -/
theorem stop_blocks_until_marker (s : WState) (e : IterEnv) (text : List Nat)
    (hfe : e.fileExists = true) (hex : e.extractOk = true)
    (hres : e.transcribeResult = some text)
    (hgate : shouldTranscribe e.sizeAtCheck s.lastProcessedSize
      (e.now - s.lastTranscriptionTime) = true) :
    (stopModel s e).transcript.getLast? = some endMarker
    ∧ entryChunk e.timestamp text ∈ (stopModel s e).transcript
    ∧ ∀ (s' : WState) (es : List IterEnv), ((runLoop s' es).1).stopFlag = s'.stopFlag := by
  have hflag : ∀ (s' : WState) (e' : IterEnv), ((loopIter s' e').1).stopFlag = s'.stopFlag := by
    intro s' e'
    simp only [loopIter]
    split
    · split
      · split
        · cases e'.transcribeResult <;> simp
        · rfl
      · rfl
    · rfl
  have hstop : stopModel s e =
      { lastProcessedSize := e.sizeAtCheck,
        lastTranscriptionTime := e.now2,
        transcript := s.transcript ++ [entryChunk e.timestamp text] ++ [endMarker],
        stopFlag := true } := by
    simp only [stopModel, loopIter, hfe, hex, hgate, hres, if_true]
  refine ⟨?_, ?_, ?_⟩
  · rw [hstop]
    simp
  · rw [hstop]
    simp
  · intro s' es
    induction es generalizing s' with
    | nil => rfl
    | cons e' es ih =>
        simp only [runLoop]
        rw [ih, hflag]

/-- Concrete instance of the stop semantics at a worker state with one
in-flight transcription. -/
theorem stop_blocks_until_marker_witness :
    (stopModel ⟨0, 0, [], false⟩
      ⟨true, 300000, 300000, 40, 41, [49], true, some [65, 66]⟩).transcript.getLast? =
      some endMarker :=
  (stop_blocks_until_marker ⟨0, 0, [], false⟩
    ⟨true, 300000, 300000, 40, 41, [49], true, some [65, 66]⟩ [65, 66]
    rfl rfl rfl (by decide)).1

/-! ### Embedding of `uc_watcher/main.py`, `cleanup_handler` (lines 131-159)

The handler receives the recorder process and the two output paths.  It
terminates the process only when `process` is truthy and
`process.poll() is None` (still running), escalating from SIGTERM to
SIGKILL when the 5-second grace period expires; it then logs the size
of each output file that exists.  The filesystem is a pair of optional
file sizes (`none` = file absent); the model returns the signals it
sent, the sizes it reported, and the (unchanged) filesystem and process
state after the call.
-/

/-- State of the recorder process as seen through `poll()`:
`none` models a `process` variable that is itself `None`. -/
inductive ProcView where
  | absent : ProcView
  | running (stopsGracefully : Bool) : ProcView
  | exited (code : Int) : ProcView
deriving DecidableEq

/-- Signals `cleanup_handler` may send. -/
inductive Sig where
  | sigterm : Sig
  | sigkill : Sig
deriving DecidableEq

/-- Result of one `cleanup_handler` call. -/
structure CleanupRes where
  signals : List Sig
  reported : List (Option Nat)
  procAfter : ProcView
  fsAfter : Option Nat × Option Nat
deriving DecidableEq

/-- Model of `cleanup_handler(process, video_file, audio_file)`:
stop FFmpeg only if it is still running (main.py line 136), then report
the final size of each output file that exists (lines 153-158).  The
handler never deletes or writes the output files, so the filesystem is
returned unchanged; a running process ends up exited. -/
def cleanup_handler (p : ProcView) (fs : Option Nat × Option Nat) : CleanupRes :=
  let sigs : List Sig :=
    match p with
    | .running true => [.sigterm]
    | .running false => [.sigterm, .sigkill]
    | _ => []
  let pAfter : ProcView :=
    match p with
    | .running _ => .exited 0
    | q => q
  { signals := sigs,
    reported := [fs.1, fs.2].filterMap (fun o => o.map some),
    procAfter := pAfter,
    fsAfter := fs }

/-- C9: invoking `cleanup_handler` on an already-exited process is a
no-op — no signal is sent and the process and filesystem are left
unchanged — and invoking it a second time reports exactly the same
final file sizes as the first call. -/
theorem cleanup_idempotent (code : Int) (fs : Option Nat × Option Nat) :
    (cleanup_handler (.exited code) fs).signals = []
    ∧ (cleanup_handler (.exited code) fs).procAfter = .exited code
    ∧ (cleanup_handler (.exited code) fs).fsAfter = fs
    ∧ (cleanup_handler ((cleanup_handler (.exited code) fs).procAfter)
        ((cleanup_handler (.exited code) fs).fsAfter)).reported =
      (cleanup_handler (.exited code) fs).reported := by
  refine ⟨rfl, rfl, rfl, rfl⟩

/-! ### Embedding of `uc_watcher/main.py`, `verify_recording` (lines 71-129)

This is the `verifyGrowth` operation of the spec (the similarly named
function in `ffmpeg.py` is never imported by `main`; `main` calls its
own definition).  Files are modelled by optional-size functions of time
(`none` = the file does not exist at that second); the polling loop is
fuelled, with sleeps advancing the clock exactly as in the source:
+3 s after both files first appear (line 93 plus the trailing
`time.sleep(1)` is skipped by `continue`), +2 s for the growth sample
(line 100), +1 s for the trailing sleep (line 111).  A `none` result
models the uncaught `os.path.getsize` exception raised if a file
disappears between samples; the post-loop diagnostics only log and the
function then returns `False`. -/

/-- Polling loop of `verify_recording`.  `filesExist` is the
`files_exist` flag; `t` is seconds since `start_time`. -/
def verifyLoop (vs as_ : Nat → Option Nat) : Nat → Bool → Nat → Option Bool
  | 0, _, t => if 30 ≤ t then some false else none
  | fuel + 1, filesExist, t =>
    if 30 ≤ t then some false
    else if !filesExist && (vs t).isSome && (as_ t).isSome then
      verifyLoop vs as_ fuel true (t + 3)
    else if filesExist then
      match vs t, as_ t, vs (t + 2), as_ (t + 2) with
      | some v, some a, some v2, some a2 =>
        if v < v2 && a < a2 then some true
        else verifyLoop vs as_ fuel filesExist (t + 3)
      | _, _, _, _ => none
    else verifyLoop vs as_ fuel filesExist (t + 1)

/-- Entry point of `verify_recording`: return `False` immediately if
the FFmpeg process has already ended (main.py line 76), otherwise run
the 30-second polling loop (40 units of fuel are more than the loop can
consume, since every iteration advances the clock). -/
def verify_recording (procAlive : Bool) (vs as_ : Nat → Option Nat) : Option Bool :=
  if procAlive then verifyLoop vs as_ 40 false 0 else some false

/-- Helper for C3: if one of the files never exists during the window,
the loop times out with `False`. -/
theorem verifyLoop_never_appears (vs as_ : Nat → Option Nat)
    (h : ∀ u, u ≤ 40 → vs u = none ∨ as_ u = none) :
    ∀ fuel t, 30 ≤ t + fuel → t ≤ 30 →
      verifyLoop vs as_ fuel false t = some false := by
  intro fuel
  induction fuel with
  | zero =>
      intro t h30 _
      simp only [verifyLoop]
      rw [if_pos (by omega : 30 ≤ t)]
  | succ fuel ih =>
      intro t h30 ht
      by_cases h30t : 30 ≤ t
      · simp only [verifyLoop, if_pos h30t]
      · have hbr : (!false && (vs t).isSome && (as_ t).isSome) = false := by
          rcases h t (by omega) with hv | ha
          · simp [hv]
          · simp [ha]
        simp only [verifyLoop, if_neg h30t, hbr, Bool.false_eq_true, if_false]
        exact ih (t + 1) (by omega) (by omega)

/-- Helper for C3: under monotone file existence and never-increasing
sizes, the loop times out with `False`. -/
theorem verifyLoop_never_grows (vs as_ : Nat → Option Nat)
    (hmv : ∀ t t', t ≤ t' → (vs t).isSome → (vs t').isSome)
    (hma : ∀ t t', t ≤ t' → (as_ t).isSome → (as_ t').isSome)
    (hnv : ∀ t t' x y, t ≤ t' → vs t = some x → vs t' = some y → y ≤ x)
    (hna : ∀ t t' x y, t ≤ t' → as_ t = some x → as_ t' = some y → y ≤ x) :
    ∀ fuel t fe, 30 ≤ t + fuel →
      (fe = true → ∃ t0, t0 ≤ t ∧ (vs t0).isSome ∧ (as_ t0).isSome) →
      verifyLoop vs as_ fuel fe t = some false := by
  intro fuel
  induction fuel with
  | zero =>
      intro t fe h30 _
      simp only [verifyLoop]
      rw [if_pos (by omega : 30 ≤ t)]
  | succ fuel ih =>
      intro t fe h30 hseen
      by_cases h30t : 30 ≤ t
      · cases fe <;> simp only [verifyLoop, if_pos h30t]
      · cases fe with
        | false =>
            by_cases hb : (!false && (vs t).isSome && (as_ t).isSome) = true
            · simp only [verifyLoop, if_neg h30t, hb, if_true]
              refine ih (t + 3) true (by omega) ?_
              intro _
              refine ⟨t, by omega, ?_, ?_⟩
              · simpa using (Bool.and_eq_true _ _ |>.mp
                  ((Bool.and_eq_true _ _ |>.mp hb).1)).2
              · simpa using (Bool.and_eq_true _ _ |>.mp hb).2
            · simp only [verifyLoop, if_neg h30t, Bool.not_eq_true] at hb ⊢
              rw [hb]
              simp only [Bool.false_eq_true, if_false]
              exact ih (t + 1) false (by omega) (by simp)
        | true =>
            obtain ⟨t0, ht0, hv0, ha0⟩ := hseen rfl
            obtain ⟨v, hv⟩ := Option.isSome_iff_exists.mp (hmv t0 t ht0 hv0)
            obtain ⟨a, ha⟩ := Option.isSome_iff_exists.mp (hma t0 t ht0 ha0)
            obtain ⟨v2, hv2⟩ := Option.isSome_iff_exists.mp
              (hmv t (t + 2) (by omega) (by simp [hv]))
            obtain ⟨a2, ha2⟩ := Option.isSome_iff_exists.mp
              (hma t (t + 2) (by omega) (by simp [ha]))
            have hvle : v2 ≤ v := hnv t (t + 2) v v2 (by omega) hv hv2
            have hgrow : (v < v2 && a < a2) = false := by
              simp only [Bool.and_eq_false_iff, decide_eq_false_iff_not]
              left; omega
            simp only [verifyLoop, if_neg h30t, Bool.not_true, Bool.false_and,
              Bool.false_eq_true, if_false, if_true, hv, ha, hv2, ha2, hgrow]
            refine ih (t + 3) true (by omega) ?_
            intro _
            exact ⟨t0, by omega, hv0, ha0⟩

/-- Helper for C3: the loop answers `True` only from the growth branch,
so a `True` answer exhibits a sample time at which both files exist and
both sizes strictly increase over the next two seconds. -/
theorem verifyLoop_true_sound (vs as_ : Nat → Option Nat) :
    ∀ fuel fe t, verifyLoop vs as_ fuel fe t = some true →
      ∃ u v a v2 a2, vs u = some v ∧ as_ u = some a ∧
        vs (u + 2) = some v2 ∧ as_ (u + 2) = some a2 ∧ v < v2 ∧ a < a2 := by
  intro fuel
  induction fuel with
  | zero =>
      intro fe t h
      simp only [verifyLoop] at h
      split at h <;> simp_all
  | succ fuel ih =>
      intro fe t h
      simp only [verifyLoop] at h
      split at h
      · simp at h
      · split at h
        · exact ih true (t + 3) h
        · split at h
          · split at h
            · rename_i v a v2 a2 hv ha hv2 ha2
              split at h
              · rename_i hgrow
                simp only [Bool.and_eq_true, decide_eq_true_eq] at hgrow
                exact ⟨t, v, a, v2, a2, hv, ha, hv2, ha2, hgrow.1, hgrow.2⟩
              · exact ih fe (t + 3) h
            · simp at h
          · exact ih fe (t + 1) h

/-- C3: `verify_recording` returns `False` when either output file
never appears during the window; returns `False` when the files exist
but their sizes never increase between two samples; and returns `True`
only when at some sample both files exist and both sizes have strictly
grown over the sampling interval. -/
theorem verify_recording_growth (vs as_ : Nat → Option Nat) :
    ((∀ u, u ≤ 40 → vs u = none ∨ as_ u = none) →
      verify_recording true vs as_ = some false)
    ∧ ((∀ t t', t ≤ t' → (vs t).isSome → (vs t').isSome) →
       (∀ t t', t ≤ t' → (as_ t).isSome → (as_ t').isSome) →
       (∀ t t' x y, t ≤ t' → vs t = some x → vs t' = some y → y ≤ x) →
       (∀ t t' x y, t ≤ t' → as_ t = some x → as_ t' = some y → y ≤ x) →
      verify_recording true vs as_ = some false)
    ∧ (∀ procAlive, verify_recording procAlive vs as_ = some true →
        ∃ u v a v2 a2, vs u = some v ∧ as_ u = some a ∧
          vs (u + 2) = some v2 ∧ as_ (u + 2) = some a2 ∧ v < v2 ∧ a < a2) := by
  refine ⟨?_, ?_, ?_⟩
  · intro h
    have h2 := verifyLoop_never_appears vs as_ h 40 0 (by omega) (by omega)
    simp only [verify_recording, if_true]
    exact h2
  · intro hmv hma hnv hna
    have h2 := verifyLoop_never_grows vs as_ hmv hma hnv hna 40 0 false (by omega) (by simp)
    simp only [verify_recording, if_true]
    exact h2
  · intro procAlive h
    simp only [verify_recording] at h
    split at h
    · exact verifyLoop_true_sound vs as_ 40 false 0 h
    · simp at h

/-- Concrete instance: with both files present from the start and
growing every second, verification succeeds and the theorem exhibits
the growth samples. -/
theorem verify_recording_growth_witness :
    ∃ u v a v2 a2, (fun t => some t) u = some v ∧ (fun t => some t) u = some a ∧
      (fun t => some t) (u + 2) = some v2 ∧ (fun t => some t) (u + 2) = some a2 ∧
      v < v2 ∧ a < a2 :=
  (verify_recording_growth (fun t => some t) (fun t => some t)).2.2 true (by decide)

/-! ### Embedding of `uc_watcher/stream.py`

Strings are lists of code points.  `containsSub` models Python's
substring test `in`; `findParam` models `re.search(key + "([^&]+)", s)`
followed by `.group(1)`: the leftmost start position at which the key
matches and is followed by at least one non-`&` character wins, and the
captured group is the maximal run of non-`&` characters there. -/

/-- Python's `needle in hay` substring test. -/
def containsSub (needle : List Nat) : List Nat → Bool
  | [] => needle.isPrefixOf []
  | c :: rest => needle.isPrefixOf (c :: rest) || containsSub needle rest

/-- Model of `re.search(key + "([^&]+)", s)` returning group 1. -/
def findParam (key : List Nat) : List Nat → Option (List Nat)
  | [] => none
  | c :: rest =>
    if key.isPrefixOf (c :: rest) then
      let v := ((c :: rest).drop key.length).takeWhile (· != 38)
      if v = [] then findParam key rest else some v
    else findParam key rest

/-- Code points of `"comm="`. -/
def commKey : List Nat := [99, 111, 109, 109, 61]

/-- Code points of `"filename="`. -/
def fnKey : List Nat := [102, 105, 108, 101, 110, 97, 109, 101, 61]

/-- Code points of `"type=live"`. -/
def typeLiveMarker : List Nat := [116, 121, 112, 101, 61, 108, 105, 118, 101]

/-- Code points of the primary playlist host template prefix,
`"https://www-senate-gov-media-srs.akamaized.net/hls/live/2096634/"`
(stream.py line 50). -/
def primaryPre : List Nat :=
  [104, 116, 116, 112, 115, 58, 47, 47, 119, 119, 119, 45, 115, 101, 110, 97,
   116, 101, 45, 103, 111, 118, 45, 109, 101, 100, 105, 97, 45, 115, 114, 115,
   46, 97, 107, 97, 109, 97, 105, 122, 101, 100, 46, 110, 101, 116, 47, 104,
   108, 115, 47, 108, 105, 118, 101, 47, 50, 48, 57, 54, 54, 51, 52, 47]

/-- Code points of `"/master.m3u8"`. -/
def masterSuf : List Nat :=
  [47, 109, 97, 115, 116, 101, 114, 46, 109, 51, 117, 56]

/-- Code points of the first backup host template prefix,
`"https://www-senate-gov-msl3archive.akamaized.net/stv/"` (line 55). -/
def backup1Pre : List Nat :=
  [104, 116, 116, 112, 115, 58, 47, 47, 119, 119, 119, 45, 115, 101, 110, 97,
   116, 101, 45, 103, 111, 118, 45, 109, 115, 108, 51, 97, 114, 99, 104, 105,
   118, 101, 46, 97, 107, 97, 109, 97, 105, 122, 101, 100, 46, 110, 101, 116,
   47, 115, 116, 118, 47]

/-- Code points of `"_1/master.m3u8"`. -/
def backup1Suf : List Nat :=
  [95, 49, 47, 109, 97, 115, 116, 101, 114, 46, 109, 51, 117, 56]

/-- Code points of the second backup host template prefix,
`"https://stv-f.akamaihd.net/i/"` (line 56). -/
def backup2Pre : List Nat :=
  [104, 116, 116, 112, 115, 58, 47, 47, 115, 116, 118, 45, 102, 46, 97, 107,
   97, 109, 97, 105, 104, 100, 46, 110, 101, 116, 47, 105, 47]

/-- Code points of `"_1@76462/master.m3u8"`. -/
def backup2Suf : List Nat :=
  [95, 49, 64, 55, 54, 52, 54, 50, 47, 109, 97, 115, 116, 101, 114, 46, 109,
   51, 117, 56]

/-- The stream descriptor built at stream.py lines 43-47. -/
structure StreamInfo where
  comm : List Nat
  filename : List Nat
  stream_id : List Nat
deriving DecidableEq

/-- Primary playlist URL, stream.py line 50 (code point 47 is `/`). -/
def primaryUrl (comm filename : List Nat) : List Nat :=
  primaryPre ++ comm ++ [47] ++ filename ++ masterSuf

/-- First backup URL, stream.py line 55. -/
def backupUrl1 (filename : List Nat) : List Nat :=
  backup1Pre ++ filename ++ backup1Suf

/-- Second backup URL, stream.py line 56. -/
def backupUrl2 (filename : List Nat) : List Nat :=
  backup2Pre ++ filename ++ backup2Suf

/-- All candidate URLs in probe order: primary first, then the two
backups in listed order (stream.py lines 50-57). -/
def candidateUrls (comm filename : List Nat) : List (List Nat) :=
  [primaryUrl comm filename, backupUrl1 filename, backupUrl2 filename]

/-- Parameter extraction and descriptor construction of
`extract_stream_url_from_html`, stream.py lines 20-47: require the
`type=live` marker, then both query parameters; code point 95 is `_`,
so `stream_id` is `comm + "_" + filename`. -/
def parseStream (url : List Nat) : Option StreamInfo :=
  if containsSub typeLiveMarker url = false then none
  else
    match findParam commKey url, findParam fnKey url with
    | some comm, some filename => some ⟨comm, filename, comm ++ [95] ++ filename⟩
    | _, _ => none

/-- Sequential probing of stream.py lines 59-102: a `HEAD` request per
candidate (`st i` is candidate `i`'s status; `none` models a timeout or
request exception), short-circuiting on the first status-200 response.
Besides the winning URL it returns how many probes were issued. -/
def probeCandidates (st : Nat → Option Nat) : List (List Nat) → Nat → Option (List Nat) × Nat
  | [], _ => (none, 0)
  | u :: us, i =>
    if st i = some 200 then (some u, 1)
    else
      let p := probeCandidates st us (i + 1)
      (p.1, p.2 + 1)

/-- Model of `extract_stream_url_from_html(page_url)` (stream.py lines
9-110): parse the page URL, derive the candidate URLs, probe them in
order; on any parse failure or if every candidate fails, return
`(None, None)`.  The probe count is returned alongside. -/
def extract_stream_url_from_html (url : List Nat) (st : Nat → Option Nat) :
    (Option (List Nat) × Option StreamInfo) × Nat :=
  match parseStream url with
  | none => ((none, none), 0)
  | some info =>
    let p := probeCandidates st (candidateUrls info.comm info.filename) 0
    match p.1 with
    | some u => ((some u, some info), p.2)
    | none => ((none, none), p.2)

/-- Outcome of fetching and parsing the schedule JSON in one attempt of
`fetch_stream_url`.  `exn` collapses the `HTTPError`, `URLError`,
`JSONDecodeError` and catch-all handlers (stream.py lines 155-177),
which have identical control flow: count the attempt and retry.  `doc`
carries the parsed `floorProceedings` array; each session is its
`convenedSessionStream` value, with `[]` standing for a missing or
empty field (both falsy in `if not html_url`). -/
inductive FetchOutcome where
  | exn : FetchOutcome
  | doc (sessions : List (List Nat)) : FetchOutcome
deriving DecidableEq

/-- Environment of one attempt: the fetch outcome and the probe
statuses seen if this attempt reaches the probing phase. -/
structure Attempt where
  fetch : FetchOutcome
  probeSt : Nat → Option Nat

/-- Observable result of `fetch_stream_url`: the returned pair plus the
number of candidate probes issued and of fetch attempts performed. -/
structure FetchRes where
  url : Option (List Nat)
  info : Option StreamInfo
  probes : Nat
  attempts : Nat
deriving DecidableEq

/-- Retry loop of `fetch_stream_url` (stream.py lines 112-184):
`attempts` counts failed attempts so far (`i`), the loop runs while
`attempts < max_attempts`, every failure — exception, empty or absent
`floorProceedings`, missing stream URL, failed extraction — increments
the counter and retries, and exhaustion returns `(None, None)`.  The
`if not stream_url` falsiness check at line 149 also covers an empty
string, which no URL template can produce (all template prefixes are
non-empty), so testing the option for `none` is faithful. -/
def fetchLoop (env : Nat → Attempt) : Nat → Nat → Nat → FetchRes
  | i, probes, 0 => ⟨none, none, probes, i⟩
  | i, probes, r + 1 =>
    match (env i).fetch with
    | .exn => fetchLoop env (i + 1) probes r
    | .doc [] => fetchLoop env (i + 1) probes r
    | .doc (s :: _) =>
      if s = [] then fetchLoop env (i + 1) probes r
      else
        let p := extract_stream_url_from_html s (env i).probeSt
        match p.1.1 with
        | some u => ⟨some u, p.1.2, probes + p.2, i + 1⟩
        | none => fetchLoop env (i + 1) (probes + p.2) r

/-- Model of `fetch_stream_url(json_url)` with the default
`max_attempts=3`. -/
def fetch_stream_url (env : Nat → Attempt) : FetchRes :=
  fetchLoop env 0 0 3

/-- On the success path of `extract_stream_url_from_html` the
descriptor is always present alongside the URL. -/
theorem extract_url_some_info (url : List Nat) (st : Nat → Option Nat)
    (u : List Nat) (h : (extract_stream_url_from_html url st).1.1 = some u) :
    ∃ inf, (extract_stream_url_from_html url st).1.2 = some inf := by
  rcases hp : parseStream url with _ | info
  · simp only [extract_stream_url_from_html, hp] at h
    exact Option.noConfusion h
  · rcases hq : (probeCandidates st (candidateUrls info.comm info.filename) 0).1 with _ | u2
    · simp only [extract_stream_url_from_html, hp, hq] at h
      exact Option.noConfusion h
    · refine ⟨info, ?_⟩
      simp only [extract_stream_url_from_html, hp, hq]

/-- Reduction of a retrying attempt of `fetchLoop`: any of the
exception handlers fires, or the sessions list is empty, or the first
session's page URL is empty, or extraction comes back without a URL. -/
theorem fetchLoop_retry (env : Nat → Attempt) (i probes r : Nat)
    (h : (env i).fetch = .exn ∨ (env i).fetch = .doc [] ∨
      (∃ rest, (env i).fetch = .doc ([] :: rest)) ∨
      (∃ s rest, (env i).fetch = .doc (s :: rest) ∧ s ≠ [] ∧
        (extract_stream_url_from_html s (env i).probeSt).1.1 = none)) :
    fetchLoop env i probes (r + 1) =
      fetchLoop env (i + 1)
        (probes + (match (env i).fetch with
          | .doc (s :: _) =>
              if s = [] then 0 else (extract_stream_url_from_html s (env i).probeSt).2
          | _ => 0)) r := by
  rcases h with h | h | ⟨rest, h⟩ | ⟨s, rest, h, hs, hx⟩
  · simp only [fetchLoop, h, Nat.add_zero]
  · simp only [fetchLoop, h, Nat.add_zero]
  · simp only [fetchLoop, h, if_true, Nat.add_zero]
  · simp only [fetchLoop, h, if_neg hs, hx]

/-- Reduction of a successful attempt of `fetchLoop`. -/
theorem fetchLoop_success (env : Nat → Attempt) (i probes r : Nat)
    (s : List Nat) (rest : List (List Nat)) (u : List Nat)
    (h : (env i).fetch = .doc (s :: rest)) (hs : s ≠ [])
    (hx : (extract_stream_url_from_html s (env i).probeSt).1.1 = some u) :
    fetchLoop env i probes (r + 1) =
      ⟨some u, (extract_stream_url_from_html s (env i).probeSt).1.2,
        probes + (extract_stream_url_from_html s (env i).probeSt).2, i + 1⟩ := by
  simp only [fetchLoop, h, if_neg hs, hx]

/-- C10: `fetch_stream_url` is a total function of its environment — no
exception reaches the caller — and its result is always either a pair
with both components present, or `(None, None)` after all three
attempts have been consumed; every failure kind (no session, network
error, malformed feed, missing parameters, unreachable candidates)
collapses to the same `(None, None)` value. -/
theorem fetch_stream_url_total_pair (env : Nat → Attempt) :
    (∃ u inf, (fetch_stream_url env).url = some u ∧ (fetch_stream_url env).info = some inf)
    ∨ ((fetch_stream_url env).url = none ∧ (fetch_stream_url env).info = none ∧
        (fetch_stream_url env).attempts = 3) := by
  have key : ∀ r i probes,
      (∃ u inf, (fetchLoop env i probes r).url = some u ∧
        (fetchLoop env i probes r).info = some inf)
      ∨ ((fetchLoop env i probes r).url = none ∧ (fetchLoop env i probes r).info = none ∧
          (fetchLoop env i probes r).attempts = i + r) := by
    intro r
    induction r with
    | zero => intro i probes; right; exact ⟨rfl, rfl, rfl⟩
    | succ r ih =>
        intro i probes
        have retry : ∀ probes', (∃ u inf, (fetchLoop env (i + 1) probes' r).url = some u ∧
              (fetchLoop env (i + 1) probes' r).info = some inf)
            ∨ ((fetchLoop env (i + 1) probes' r).url = none ∧
                (fetchLoop env (i + 1) probes' r).info = none ∧
                (fetchLoop env (i + 1) probes' r).attempts = i + (r + 1)) := by
          intro probes'
          rcases ih (i + 1) probes' with h | h
          · exact Or.inl h
          · refine Or.inr ⟨h.1, h.2.1, ?_⟩
            rw [h.2.2]; omega
        rcases hf : (env i).fetch with _ | sessions
        · rw [fetchLoop_retry env i probes r (Or.inl hf)]
          exact retry _
        · rcases sessions with _ | ⟨s, rest⟩
          · rw [fetchLoop_retry env i probes r (Or.inr (Or.inl hf))]
            exact retry _
          · by_cases hs : s = []
            · subst hs
              rw [fetchLoop_retry env i probes r (Or.inr (Or.inr (Or.inl ⟨rest, hf⟩)))]
              exact retry _
            · rcases hx : (extract_stream_url_from_html s (env i).probeSt).1.1 with _ | u
              · rw [fetchLoop_retry env i probes r
                  (Or.inr (Or.inr (Or.inr ⟨s, rest, hf, hs, hx⟩)))]
                exact retry _
              · rw [fetchLoop_success env i probes r s rest u hf hs hx]
                obtain ⟨inf, hinf⟩ := extract_url_some_info s (env i).probeSt u hx
                exact Or.inl ⟨u, inf, rfl, hinf⟩
  rcases key 3 0 0 with h | h
  · exact Or.inl h
  · exact Or.inr ⟨h.1, h.2.1, h.2.2⟩

/-- Helper for C2: when every attempt sees an empty (or absent)
`floorProceedings` array, the loop consumes all remaining attempts, the
probe counter never moves, and `(None, None)` is returned. -/
theorem fetchLoop_empty_sessions (env : Nat → Attempt)
    (h : ∀ n, (env n).fetch = .doc []) :
    ∀ r i probes, fetchLoop env i probes r = ⟨none, none, probes, i + r⟩ := by
  intro r
  induction r with
  | zero => intro i probes; rfl
  | succ r ih =>
      intro i probes
      simp only [fetchLoop, h i]
      rw [ih (i + 1) probes]
      congr 1
      omega

/-- Environment in which the Senate is never in session: every fetch
yields a schedule document with an empty sessions collection. -/
def emptyScheduleEnv : Nat → Attempt :=
  fun _ => ⟨.doc [], fun _ => none⟩

/-- C2 counterexample: for a schedule document with an empty sessions
collection the resolver itself performs all three fetch attempts — the
`ValueError` raised at stream.py line 135 is caught at line 171 and
retried like every other failure — contradicting the claim that this
failure is not retried by the resolver. -/
theorem empty_sessions_is_retried :
    (fetch_stream_url emptyScheduleEnv).attempts = 3
    ∧ ¬ (fetch_stream_url emptyScheduleEnv).attempts ≤ 1 := by
  constructor
  · decide
  · decide

/-- C2 (amended): for every schedule document whose sessions collection
is absent or empty, resolution fails with the not-in-session error and
no candidate-URL probe is ever issued, but the resolver retries the
failure up to its fixed attempt limit (three attempts) before returning
the failure value. -/
theorem empty_sessions_no_probes (env : Nat → Attempt)
    (h : ∀ n, (env n).fetch = .doc []) :
    (fetch_stream_url env).url = none ∧ (fetch_stream_url env).info = none
    ∧ (fetch_stream_url env).probes = 0 ∧ (fetch_stream_url env).attempts = 3 := by
  have := fetchLoop_empty_sessions env h 3 0 0
  unfold fetch_stream_url
  rw [this]
  exact ⟨rfl, rfl, rfl, rfl⟩

/-- Concrete instance of the amended C2 statement. -/
theorem empty_sessions_no_probes_witness :
    (fetch_stream_url emptyScheduleEnv).url = none
    ∧ (fetch_stream_url emptyScheduleEnv).info = none
    ∧ (fetch_stream_url emptyScheduleEnv).probes = 0
    ∧ (fetch_stream_url emptyScheduleEnv).attempts = 3 :=
  empty_sessions_no_probes emptyScheduleEnv (fun _ => rfl)

/-- C6: candidates are probed primary-first then backups in listed
order with short-circuit on the first HTTP 200: a 200 on the primary
returns it after one probe; a non-200 primary with a 200 first backup
returns the first backup after exactly two probes, so the second backup
is never probed; and if no candidate returns 200 the probe phase fails
after all three probes. -/
theorem probe_order_short_circuit (comm filename : List Nat) (st : Nat → Option Nat) :
    (st 0 = some 200 →
      probeCandidates st (candidateUrls comm filename) 0 = (some (primaryUrl comm filename), 1))
    ∧ (st 0 ≠ some 200 → st 1 = some 200 →
      probeCandidates st (candidateUrls comm filename) 0 = (some (backupUrl1 filename), 2))
    ∧ ((∀ i, i < 3 → st i ≠ some 200) →
      probeCandidates st (candidateUrls comm filename) 0 = (none, 3)) := by
  refine ⟨?_, ?_, ?_⟩
  · intro h0
    simp only [candidateUrls, probeCandidates, if_pos h0]
  · intro h0 h1
    simp only [candidateUrls, probeCandidates, if_neg h0, if_pos h1]
  · intro hall
    simp only [candidateUrls, probeCandidates, if_neg (hall 0 (by omega)),
      if_neg (hall 1 (by omega)), if_neg (hall 2 (by omega))]

/-- Probe statuses with the primary unreachable and the first backup
healthy. -/
def backupOkSt : Nat → Option Nat :=
  fun i => if i = 1 then some 200 else some 404

/-- Concrete instance of the probing order: primary 404, first backup
200 — the first backup wins after two probes. -/
theorem probe_order_short_circuit_witness :
    probeCandidates backupOkSt (candidateUrls [97] [98]) 0 = (some (backupUrl1 [98]), 2) :=
  (probe_order_short_circuit [97] [98] backupOkSt).2.1 (by decide) (by decide)

/-! ### Correctness of the parameter extraction (claim C8) -/

/-- A successful Boolean substring test yields a decomposition. -/
theorem containsSub_exists (needle hay : List Nat)
    (h : containsSub needle hay = true) : ∃ s t, hay = s ++ needle ++ t := by
  induction hay with
  | nil =>
      simp only [containsSub] at h
      have h2 : needle <+: ([] : List Nat) := by simpa using h
      obtain ⟨t, ht⟩ := h2
      obtain ⟨h3, h4⟩ := List.append_eq_nil.mp ht
      exact ⟨[], [], by simp [h3]⟩
  | cons c rest ih =>
      simp only [containsSub, Bool.or_eq_true] at h
      rcases h with h | h
      · have h2 : needle <+: c :: rest := by simpa using h
        obtain ⟨t, ht⟩ := h2
        exact ⟨[], t, by simp [ht.symm]⟩
      · obtain ⟨s, t, ht⟩ := ih h
        exact ⟨c :: s, t, by simp [ht]⟩

/-- A decomposition makes the Boolean substring test succeed. -/
theorem containsSub_of_parts (needle s t : List Nat) :
    containsSub needle (s ++ needle ++ t) = true := by
  induction s with
  | nil =>
      have hp : needle.isPrefixOf (needle ++ t) = true := by
        simpa using List.prefix_append needle t
      rw [List.nil_append]
      cases hnt : needle ++ t with
      | nil =>
          simp only [containsSub]
          rw [← hnt]
          exact hp
      | cons a l =>
          simp only [containsSub, Bool.or_eq_true]
          rw [← hnt]
          exact Or.inl hp
  | cons a s' ih =>
      simp only [List.cons_append, containsSub, Bool.or_eq_true]
      exact Or.inr ih

/-- The captured group `[^&]+` is the value up to the next `&`. -/
theorem takeWhile_value (v post : List Nat) (hv : v.all (· != 38) = true)
    (hpost : post.headD 38 = 38) : (v ++ post).takeWhile (· != 38) = v := by
  induction v with
  | nil =>
      cases post with
      | nil => rfl
      | cons p ps =>
          simp only [List.headD] at hpost
          subst hpost
          simp [List.takeWhile_cons]
  | cons a v' ih =>
      simp only [List.all_cons, Bool.and_eq_true] at hv
      simp [List.takeWhile_cons, hv.1, ih hv.2]

/-- Correctness of `findParam`: on a string of the form
`pre ++ key ++ v ++ post` where the key has no earlier (possibly
overlapping) occurrence, the value is non-empty and `&`-free and the
tail starts with `&` or is empty, the captured group is exactly `v`. -/
theorem findParam_append (key v post : List Nat) (hkey : key ≠ [])
    (hvne : v ≠ []) (hv : v.all (· != 38) = true) (hpost : post.headD 38 = 38) :
    ∀ pre, containsSub key (pre ++ key.dropLast) = false →
      findParam key (pre ++ key ++ v ++ post) = some v := by
  intro pre
  induction pre with
  | nil =>
      intro _
      cases key with
      | nil => exact absurd rfl hkey
      | cons k ks =>
          have hshape : ([] : List Nat) ++ (k :: ks) ++ v ++ post =
              k :: (ks ++ (v ++ post)) := by simp
          rw [hshape]
          have hp : (k :: ks).isPrefixOf (k :: (ks ++ (v ++ post))) = true := by
            have := List.prefix_append (k :: ks) (v ++ post)
            simpa using this
          have hdrop : (k :: (ks ++ (v ++ post))).drop (k :: ks).length = v ++ post := by
            have := List.drop_left (k :: ks) (v ++ post)
            simpa using this
          simp only [findParam, hp, if_true, hdrop,
            takeWhile_value v post hv hpost, if_neg hvne]
  | cons a pre' ih =>
      intro hns
      have hns2 : containsSub key (a :: (pre' ++ key.dropLast)) = false := by
        simpa using hns
      have hnstail : containsSub key (pre' ++ key.dropLast) = false := by
        simp only [containsSub, Bool.or_eq_false_iff] at hns2
        exact hns2.2
      have hnp : key.isPrefixOf (a :: (pre' ++ (key ++ (v ++ post)))) = false := by
        by_contra hc
        rw [Bool.not_eq_false] at hc
        have hpref : key <+: a :: (pre' ++ (key ++ (v ++ post))) := by simpa using hc
        have hk : key.dropLast ++ [key.getLast hkey] = key :=
          List.dropLast_append_getLast hkey
        have hsplit : a :: (pre' ++ (key ++ (v ++ post))) =
            (a :: (pre' ++ key.dropLast)) ++ (key.getLast hkey :: (v ++ post)) := by
          conv_lhs => rw [← hk]
          simp [List.append_assoc]
        have hlen : key.length ≤ (a :: (pre' ++ key.dropLast)).length := by
          simp only [List.length_cons, List.length_append, List.length_dropLast]
          have hk1 : 0 < key.length := List.length_pos.mpr hkey
          omega
        have htake : key = (a :: (pre' ++ key.dropLast)).take key.length := by
          have h1 := List.prefix_iff_eq_take.mp hpref
          rw [hsplit, List.take_append_of_le_length hlen] at h1
          exact h1
        have hpref2 : key <+: (a :: (pre' ++ key.dropLast)) := by
          refine ⟨(a :: (pre' ++ key.dropLast)).drop key.length, ?_⟩
          nth_rewrite 1 [htake]
          exact List.take_append_drop _ _
        obtain ⟨t, ht⟩ := hpref2
        have hcontra : containsSub key (a :: (pre' ++ key.dropLast)) = true := by
          have h2 := containsSub_of_parts key [] t
          rw [List.nil_append, ht] at h2
          exact h2
        rw [hcontra] at hns2
        exact Bool.noConfusion hns2
      have hgoal := ih hnstail
      have hshape : (a :: pre') ++ key ++ v ++ post =
          a :: (pre' ++ (key ++ (v ++ post))) := by simp
      rw [hshape]
      simp only [findParam, hnp, Bool.false_eq_true, if_false]
      have hshape2 : pre' ++ key ++ v ++ post = pre' ++ (key ++ (v ++ post)) := by simp
      rw [hshape2] at hgoal
      exact hgoal

/-- C8: for every page URL of the form
`pre ++ "comm=" ++ c ++ "&" ++ "filename=" ++ f ++ post` — i.e. a URL
containing `comm=<c>` and `filename=<f>` (first occurrences, values
non-empty and `&`-free, value terminated by `&` or end of string) and
the `type=live` marker — the extracted parameters are exactly `c` and
`f`, the derived `stream_id` is exactly `c ++ "_" ++ f` (code point 95
is `_`), and the candidate list consists of the primary URL plus
exactly two backup URLs, all given by fixed templates of `c` and `f`;
being equations of pure functions of `c` and `f`, the derivation is
deterministic (idempotent) in the inputs. -/
theorem stream_descriptor_derivation (pre c f post : List Nat)
    (hlive : containsSub typeLiveMarker
      (pre ++ commKey ++ c ++ [38] ++ fnKey ++ f ++ post) = true)
    (hc0 : containsSub commKey (pre ++ commKey.dropLast) = false)
    (hcne : c ≠ []) (hc38 : c.all (· != 38) = true)
    (hf0 : containsSub fnKey ((pre ++ commKey ++ c ++ [38]) ++ fnKey.dropLast) = false)
    (hfne : f ≠ []) (hf38 : f.all (· != 38) = true)
    (hpost : post.headD 38 = 38) :
    findParam commKey (pre ++ commKey ++ c ++ [38] ++ fnKey ++ f ++ post) = some c
    ∧ findParam fnKey (pre ++ commKey ++ c ++ [38] ++ fnKey ++ f ++ post) = some f
    ∧ parseStream (pre ++ commKey ++ c ++ [38] ++ fnKey ++ f ++ post) =
        some ⟨c, f, c ++ [95] ++ f⟩
    ∧ candidateUrls c f = [primaryUrl c f, backupUrl1 f, backupUrl2 f] := by
  have hcomm : findParam commKey (pre ++ commKey ++ c ++ [38] ++ fnKey ++ f ++ post) = some c := by
    have := findParam_append commKey c ([38] ++ fnKey ++ f ++ post)
      (by decide) hcne hc38 (by rfl) pre hc0
    simpa [List.append_assoc] using this
  have hfn : findParam fnKey (pre ++ commKey ++ c ++ [38] ++ fnKey ++ f ++ post) = some f := by
    have := findParam_append fnKey f post (by decide) hfne hf38 hpost
      (pre ++ commKey ++ c ++ [38]) hf0
    simpa [List.append_assoc] using this
  refine ⟨hcomm, hfn, ?_, rfl⟩
  simp only [parseStream, hlive, hcomm, hfn]
  simp

/-- Concrete witness URL prefix, `"https://x.test/?type=live&"`. -/
def witPre : List Nat :=
  [104, 116, 116, 112, 115, 58, 47, 47, 120, 46, 116, 101, 115, 116, 47, 63,
   116, 121, 112, 101, 61, 108, 105, 118, 101, 38]

/-- Concrete instance of the derivation: `comm=abc&filename=xyz` yields
`stream_id = "abc_xyz"`. -/
theorem stream_descriptor_derivation_witness :
    parseStream (witPre ++ commKey ++ [97, 98, 99] ++ [38] ++ fnKey ++ [120, 121, 122] ++ []) =
      some ⟨[97, 98, 99], [120, 121, 122], [97, 98, 99] ++ [95] ++ [120, 121, 122]⟩ :=
  (stream_descriptor_derivation witPre [97, 98, 99] [120, 121, 122] []
    (by decide) (by decide) (by decide) (by decide) (by decide) (by decide)
    (by decide) (by decide)).2.2.1

/-! ### Embedding of trigger-phrase detection (transcribe.py lines 73-91
and 220-223)

The loop body checks `"unanimous consent" in text.lower()` and, when it
holds, calls `_send_notification(timestamp, text)`, which splits the
text into whitespace-separated words, scans for an index `i` whose word
contains `"unanimous"` (case-insensitively) followed by a word
containing `"consent"`, and for every such index emits a notification
request `(title, timestamp, context)` whose context is the word window
`words[max(0, i-10) : min(len(words), i+12)]` joined by spaces.
Lower-casing is modelled on code points (ASCII letters), and
`str.split()` as splitting on runs of whitespace. -/

/-- Whitespace test matching Python's default `str.split()` on ASCII
input: space, tab, newline, carriage return, vertical tab, form feed. -/
def isSpaceN (n : Nat) : Bool :=
  n == 32 || n == 9 || n == 10 || n == 13 || n == 11 || n == 12

/-- Code-point lower-casing: ASCII `A`-`Z` map to `a`-`z`. -/
def lowerN (n : Nat) : Nat := if 65 ≤ n ∧ n ≤ 90 then n + 32 else n

/-- Model of `str.lower()`. -/
def lowerStr (s : List Nat) : List Nat := s.map lowerN

/-- Accumulator-based splitter behind `str.split()`: `acc` holds the
current word reversed. -/
def splitWAux : List Nat → List Nat → List (List Nat)
  | [], acc => if acc = [] then [] else [acc.reverse]
  | c :: cs, acc =>
    if isSpaceN c then
      if acc = [] then splitWAux cs []
      else acc.reverse :: splitWAux cs []
    else splitWAux cs (c :: acc)

/-- Model of `text.split()`. -/
def splitW (s : List Nat) : List (List Nat) := splitWAux s []

/-- Code points of `"unanimous"`. -/
def wordU : List Nat := [117, 110, 97, 110, 105, 109, 111, 117, 115]

/-- Code points of `"consent"`. -/
def wordC : List Nat := [99, 111, 110, 115, 101, 110, 116]

/-- Code points of the trigger phrase `"unanimous consent"`. -/
def phraseUC : List Nat := wordU ++ [32] ++ wordC

/-- Code points of the title `"Unanimous Consent Mentioned"`. -/
def notifTitle : List Nat :=
  [85, 110, 97, 110, 105, 109, 111, 117, 115, 32, 67, 111, 110, 115, 101, 110,
   116, 32, 77, 101, 110, 116, 105, 111, 110, 101, 100]

/-- A notification request handed to the notification sink:
`(title, subtitle, message)` as in `_send_system_notification`. -/
structure NotifEvent where
  title : List Nat
  subtitle : List Nat
  message : List Nat
deriving DecidableEq

/-- Match condition of transcribe.py line 79 at word index `i`:
`"unanimous" in words[i].lower() and i + 1 < len(words) and
"consent" in words[i + 1].lower()`. -/
def ucHit (ws : List (List Nat)) (i : Nat) : Bool :=
  match ws[i]?, ws[i + 1]? with
  | some w1, some w2 => containsSub wordU (lowerStr w1) && containsSub wordC (lowerStr w2)
  | _, _ => false

/-- The event emitted at a matching index: the context is
`words[max(0, i-10) : min(len(words), i+12)]` joined with spaces
(transcribe.py lines 81-89); `i - 10` on `Nat` is `max(0, i-10)`. -/
def ucEvent (ts : List Nat) (ws : List (List Nat)) (i : Nat) : NotifEvent :=
  { title := notifTitle, subtitle := ts,
    message := List.intercalate [32]
      ((ws.drop (i - 10)).take (min ws.length (i + 12) - (i - 10))) }

/-- Scan of the word list from index `i` with the given fuel, emitting
one event per matching index (the Python loop visits every index). -/
def scanUCAux (ts : List Nat) (ws : List (List Nat)) : Nat → Nat → List NotifEvent
  | _, 0 => []
  | i, fuel + 1 =>
    (if ucHit ws i then [ucEvent ts ws i] else []) ++ scanUCAux ts ws (i + 1) fuel

/-- Model of `_send_notification(timestamp, text)`: the list of emitted
notification requests. -/
def sendNotification (ts text : List Nat) : List NotifEvent :=
  scanUCAux ts (splitW text) 0 (splitW text).length

/-- Model of the trigger check in `_transcribe_loop` (lines 220-223):
`_send_notification` runs only when the lower-cased text contains the
phrase. -/
def transcribeNotify (ts text : List Nat) : List NotifEvent :=
  if containsSub phraseUC (lowerStr text) then sendNotification ts text else []

/-- Lower-casing never turns a character into or out of whitespace. -/
theorem isSpaceN_lowerN (n : Nat) : isSpaceN (lowerN n) = isSpaceN n := by
  simp only [isSpaceN, lowerN]
  split
  · rename_i h
    have hl : (n + 32 == 32 || n + 32 == 9 || n + 32 == 10 || n + 32 == 13 ||
        n + 32 == 11 || n + 32 == 12) = false := by
      simp only [Bool.or_eq_false_iff, beq_eq_false_iff_ne]
      omega
    have hr : (n == 32 || n == 9 || n == 10 || n == 13 || n == 11 || n == 12) = false := by
      simp only [Bool.or_eq_false_iff, beq_eq_false_iff_ne]
      omega
    rw [hl, hr]
  · rfl

/-- Splitting commutes with lower-casing. -/
theorem splitWAux_lower (s : List Nat) :
    ∀ acc, splitWAux (s.map lowerN) (acc.map lowerN) =
      (splitWAux s acc).map (List.map lowerN) := by
  induction s with
  | nil =>
      intro acc
      by_cases h : acc = []
      · subst h
        rfl
      · have h2 : acc.map lowerN ≠ [] := by simpa using h
        simp [splitWAux, h, h2, List.map_reverse]
  | cons c cs ih =>
      intro acc
      simp only [List.map_cons, splitWAux, isSpaceN_lowerN]
      by_cases hsp : isSpaceN c
      · simp only [hsp, if_true]
        by_cases h : acc = []
        · subst h
          simpa using ih []
        · have h2 : acc.map lowerN ≠ [] := by simpa using h
          have hih := ih []
          simp only [List.map_nil] at hih
          simp [h, h2, List.map_reverse, hih]
      · simp only [hsp, Bool.false_eq_true, if_false]
        simpa using ih (c :: acc)

/-- A run of non-whitespace characters is absorbed into the current
word. -/
theorem splitWAux_absorb (v : List Nat) (hv : v.all (fun c => !isSpaceN c) = true) :
    ∀ r acc, splitWAux (v ++ r) acc = splitWAux r (v.reverse ++ acc) := by
  induction v with
  | nil => intro r acc; simp
  | cons c v2 ih =>
      intro r acc
      simp only [List.all_cons, Bool.and_eq_true, Bool.not_eq_eq_eq_not, Bool.not_true] at hv
      have hstep : splitWAux ((c :: v2) ++ r) acc = splitWAux (v2 ++ r) (c :: acc) := by
        simp only [List.cons_append, splitWAux, hv.1, Bool.false_eq_true, if_false]
        rfl
      rw [hstep, ih hv.2 r (c :: acc)]
      simp [List.append_assoc]

/-- With a non-empty accumulator, the first word produced starts with
the accumulated characters. -/
theorem splitWAux_first_word (t : List Nat) :
    ∀ acc, acc ≠ [] → ∃ w rest, splitWAux t acc = (acc.reverse ++ w) :: rest := by
  induction t with
  | nil =>
      intro acc h
      refine ⟨[], [], ?_⟩
      simp [splitWAux, h]
  | cons c cs ih =>
      intro acc h
      by_cases hsp : isSpaceN c
      · refine ⟨[], splitWAux cs [], ?_⟩
        simp [splitWAux, hsp, h]
      · obtain ⟨w, rest, hw⟩ := ih (c :: acc) (by simp)
        refine ⟨c :: w, rest, ?_⟩
        simp only [splitWAux, hsp, Bool.false_eq_true, if_false]
        rw [hw]
        simp [List.append_assoc]

/-- Splitting a string that contains `"unanimous consent"` verbatim
produces two adjacent words, the first containing `"unanimous"` and
the second containing `"consent"`. -/
theorem splitWAux_pair (t2 : List Nat) :
    ∀ s acc, ∃ j w1 w2,
      (splitWAux (s ++ wordU ++ 32 :: (wordC ++ t2)) acc)[j]? = some w1 ∧
      (splitWAux (s ++ wordU ++ 32 :: (wordC ++ t2)) acc)[j + 1]? = some w2 ∧
      containsSub wordU w1 = true ∧ containsSub wordC w2 = true := by
  intro s
  induction s with
  | nil =>
      intro acc
      have h1 : ([] : List Nat) ++ wordU ++ 32 :: (wordC ++ t2) =
          wordU ++ (32 :: (wordC ++ t2)) := by simp
      rw [h1, splitWAux_absorb wordU (by decide) (32 :: (wordC ++ t2)) acc]
      have hne : wordU.reverse ++ acc ≠ [] := by simp [wordU]
      have hred : splitWAux (32 :: (wordC ++ t2)) (wordU.reverse ++ acc) =
          (wordU.reverse ++ acc).reverse :: splitWAux (wordC ++ t2) [] := by
        simp only [splitWAux]
        rw [if_pos (by decide : isSpaceN 32 = true), if_neg hne]
      rw [hred, splitWAux_absorb wordC (by decide) t2 []]
      obtain ⟨w, rest, hw⟩ := splitWAux_first_word t2 (wordC.reverse ++ [])
        (by simp [wordC])
      rw [hw]
      refine ⟨0, (wordU.reverse ++ acc).reverse, (wordC.reverse ++ []).reverse ++ w,
        by simp, by simp, ?_, ?_⟩
      · have hW1 : (wordU.reverse ++ acc).reverse = acc.reverse ++ wordU := by
          simp
        rw [hW1]
        have := containsSub_of_parts wordU acc.reverse []
        simpa using this
      · have hW2 : (wordC.reverse ++ []).reverse ++ w = wordC ++ w := by simp
        rw [hW2]
        have := containsSub_of_parts wordC [] w
        simpa using this
  | cons c s2 ihs =>
      intro acc
      have hshape : (c :: s2) ++ wordU ++ 32 :: (wordC ++ t2) =
          c :: (s2 ++ wordU ++ 32 :: (wordC ++ t2)) := by simp
      rw [hshape]
      by_cases hsp : isSpaceN c
      · by_cases hacc : acc = []
        · have hred : splitWAux (c :: (s2 ++ wordU ++ 32 :: (wordC ++ t2))) acc =
              splitWAux (s2 ++ wordU ++ 32 :: (wordC ++ t2)) [] := by
            simp [splitWAux, hsp, hacc]
          rw [hred]
          exact ihs []
        · have hred : splitWAux (c :: (s2 ++ wordU ++ 32 :: (wordC ++ t2))) acc =
              acc.reverse :: splitWAux (s2 ++ wordU ++ 32 :: (wordC ++ t2)) [] := by
            simp [splitWAux, hsp, hacc]
          rw [hred]
          obtain ⟨j, w1, w2, hj, hj1, hw1, hw2⟩ := ihs []
          exact ⟨j + 1, w1, w2, by simpa using hj, by simpa using hj1, hw1, hw2⟩
      · have hred : splitWAux (c :: (s2 ++ wordU ++ 32 :: (wordC ++ t2))) acc =
            splitWAux (s2 ++ wordU ++ 32 :: (wordC ++ t2)) (c :: acc) := by
          simp [splitWAux, hsp]
        rw [hred]
        exact ihs (c :: acc)

/-- Every event the scan emits is the event of some matching index. -/
theorem scanUCAux_shape (ts : List Nat) (ws : List (List Nat)) :
    ∀ fuel i e, e ∈ scanUCAux ts ws i fuel →
      ∃ j, i ≤ j ∧ ucHit ws j = true ∧ e = ucEvent ts ws j := by
  intro fuel
  induction fuel with
  | zero =>
      intro i e h
      simp [scanUCAux] at h
  | succ fuel ih =>
      intro i e h
      simp only [scanUCAux, List.mem_append] at h
      rcases h with h | h
      · by_cases hh : ucHit ws i
        · rw [if_pos hh] at h
          simp only [List.mem_singleton] at h
          exact ⟨i, le_refl i, hh, h⟩
        · rw [if_neg hh] at h
          simp at h
      · obtain ⟨j, hij, hhit, he⟩ := ih (i + 1) e h
        exact ⟨j, by omega, hhit, he⟩

/-- A matching index inside the scanned range makes the scan emit at
least one event. -/
theorem scanUCAux_hit (ts : List Nat) (ws : List (List Nat)) :
    ∀ fuel i j, i ≤ j → j < i + fuel → ucHit ws j = true →
      scanUCAux ts ws i fuel ≠ [] := by
  intro fuel
  induction fuel with
  | zero =>
      intro i j h1 h2 _
      omega
  | succ fuel ih =>
      intro i j h1 h2 hhit
      simp only [scanUCAux]
      by_cases hij : i = j
      · subst hij
        rw [if_pos hhit]
        simp
      · have htail : scanUCAux ts ws (i + 1) fuel ≠ [] :=
          ih (i + 1) j (by omega) (by omega) hhit
        intro hcontra
        exact htail (List.append_eq_nil.mp hcontra).2

/-- C7: whenever the transcribed text contains the phrase
`"unanimous consent"` (case-insensitively), at least one notification
request is emitted, and every emitted request carries the fixed title,
the timestamp as its subtitle, and as its message the bounded word
window around some matching index (up to 10 words before and 11 words
after the start of the phrase); text without the phrase emits no
notification. -/
theorem trigger_phrase_notification (ts text : List Nat) :
    (containsSub phraseUC (lowerStr text) = true →
      transcribeNotify ts text ≠ [] ∧
      ∀ e ∈ transcribeNotify ts text,
        e.title = notifTitle ∧ e.subtitle = ts ∧
        ∃ i, ucHit (splitW text) i = true ∧ e = ucEvent ts (splitW text) i)
    ∧ (containsSub phraseUC (lowerStr text) = false →
        transcribeNotify ts text = []) := by
  constructor
  · intro h
    have hsend : transcribeNotify ts text = sendNotification ts text := by
      simp [transcribeNotify, h]
    obtain ⟨s, t, hdec⟩ := containsSub_exists phraseUC (lowerStr text) h
    have hdec2 : lowerStr text = s ++ wordU ++ 32 :: (wordC ++ t) := by
      rw [hdec]
      simp [phraseUC, List.append_assoc]
    obtain ⟨j, w1, w2, hj, hj1, hw1, hw2⟩ := splitWAux_pair t s []
    rw [← hdec2] at hj hj1
    have hcomm : splitWAux (lowerStr text) [] = (splitWAux text []).map (List.map lowerN) := by
      simpa [lowerStr] using splitWAux_lower text []
    rw [hcomm] at hj hj1
    rw [List.getElem?_map] at hj hj1
    have hj' : ∃ u1, (splitWAux text [])[j]? = some u1 ∧ List.map lowerN u1 = w1 := by
      cases hu : (splitWAux text [])[j]? with
      | none => rw [hu] at hj; simp at hj
      | some u1 =>
          rw [hu] at hj
          simp at hj
          exact ⟨u1, rfl, hj⟩
    have hj1' : ∃ u2, (splitWAux text [])[j + 1]? = some u2 ∧ List.map lowerN u2 = w2 := by
      cases hu : (splitWAux text [])[j + 1]? with
      | none => rw [hu] at hj1; simp at hj1
      | some u2 =>
          rw [hu] at hj1
          simp at hj1
          exact ⟨u2, rfl, hj1⟩
    obtain ⟨u1, hu1, hlow1⟩ := hj'
    obtain ⟨u2, hu2, hlow2⟩ := hj1'
    have hhit : ucHit (splitW text) j = true := by
      simp only [ucHit, splitW, lowerStr, hu1, hu2, hlow1, hlow2, hw1, hw2]
      rfl
    have hlt : j + 1 < (splitW text).length := by
      have h2 : (splitW text)[j + 1]? = some u2 := hu2
      obtain ⟨hb, _⟩ := List.getElem?_eq_some_iff.mp h2
      exact hb
    have hne : scanUCAux ts (splitW text) 0 (splitW text).length ≠ [] :=
      scanUCAux_hit ts (splitW text) (splitW text).length 0 j (by omega) (by omega) hhit
    refine ⟨by rw [hsend]; exact hne, ?_⟩
    intro e he
    rw [hsend] at he
    obtain ⟨j2, _, hhit2, he2⟩ :=
      scanUCAux_shape ts (splitW text) (splitW text).length 0 e he
    exact ⟨by simp [he2, ucEvent], by simp [he2, ucEvent], j2, hhit2, he2⟩
  · intro h
    simp [transcribeNotify, h]

/-- Code points of the timestamp `"2025-01-01 00:00:00"`. -/
def witTs : List Nat :=
  [50, 48, 50, 53, 45, 48, 49, 45, 48, 49, 32, 48, 48, 58, 48, 48, 58, 48, 48]

/-- Code points of `"I ask unanimous consent that"`. -/
def witText : List Nat :=
  [73, 32, 97, 115, 107, 32, 117, 110, 97, 110, 105, 109, 111, 117, 115, 32,
   99, 111, 110, 115, 101, 110, 116, 32, 116, 104, 97, 116]

/-- Concrete instance of the trigger-phrase behaviour. -/
theorem trigger_phrase_notification_witness :
    transcribeNotify witTs witText ≠ [] :=
  ((trigger_phrase_notification witTs witText).1 (by decide)).1

end SenateTranscript
